import Mathlib

/-!
Shallow embedding of passphrase-py (`src/passphrase/passphrase.py`).

The collaborating modules `secrets`, `calc` and `settings` are imported by
`passphrase.py` but are not part of the repository snapshot; the definitions
that stand for them are modelled from the design document and say so in
their doc comments.  Python strings are modelled as lists of characters,
Python ints as `ℤ`, Python floats as `ℚ` (exact values; the claims under
study never exercise rounding), and the cryptographically secure byte
source as an explicit stream `ℕ → ℕ` of byte values together with a read
position.  The rejection-sampling loop of `randbelow` is given explicit
fuel; a `none` outcome means the fuel ran out, an artefact of the
embedding, never a behaviour of the code.
-/

/-- Error taxonomy of the design document (section 7).  The Python code
raises `TypeError` / `ValueError` / dedicated errors, which the document
groups by kind. -/
inductive Err where
  | invalidConfiguration
  | invalidRange
  | emptyAlphabet
  | degenerateAlphabet
  deriving DecidableEq, Repr

/-- One token of a generation result: the Python lists mix strings (words,
single characters) and ints (numbers). -/
inductive Token where
  | str (s : List Char)
  | num (z : ℤ)
  deriving DecidableEq, Repr

/-- `str(token)` as applied by `__str__` (line 166): a string renders as
itself, an int as its decimal form. -/
def Token.render : Token → List Char
  | .str s => s
  | .num z => (toString z).data

/-- A Python value as far as the validated setters and `entropy_bits`
inspect it (`isinstance(x, (int, float))` and friends). -/
inductive PyVal where
  | int (z : ℤ)
  | float (q : ℚ)
  | str (s : List Char)
  deriving DecidableEq, Repr

/-- `isinstance(x, (int, float))` on a modelled Python value. -/
def PyVal.isNumeric : PyVal → Bool
  | .int _ => true
  | .float _ => true
  | .str _ => false

/-- The numeric value of an int or float (0 on a string, unreachable in all
guarded uses). -/
def PyVal.toQ : PyVal → ℚ
  | .int z => (z : ℚ)
  | .float q => q
  | .str _ => 0

/-- Modelled from the spec: `settings.MIN_NUM`, the default minimum of the
numeric range (section 3: `numeric_range` default `(0, 10000)`); the
`settings` module is not in the repository snapshot. -/
def MIN_NUM : ℤ := 0

/-- Modelled from the spec: `settings.MAX_NUM`, the default maximum of the
numeric range; the `settings` module is not in the repository snapshot. -/
def MAX_NUM : ℤ := 10000

/-- Modelled from the spec: `settings.ENTROPY_BITS_MIN`, the default entropy
target (section 3: `entropy_bits_required` default 77); the `settings`
module is not in the repository snapshot. -/
def ENTROPY_BITS_MIN : ℚ := 77

/-- Bit length of a natural number, written with explicit structural fuel so
that the kernel can evaluate it (the fuel `n` always suffices). -/
def bitLenAux : ℕ → ℕ → ℕ
  | 0, _ => 0
  | fuel + 1, n => if n = 0 then 0 else bitLenAux fuel (n / 2) + 1

/-- Bit length of `n`: the least `k` with `n < 2 ^ k`. -/
def bitLen (n : ℕ) : ℕ := bitLenAux n n

/-- Modelled from the spec: the byte count read per attempt by
`secrets.randbelow` — the bit length of `n` rounded up to a byte boundary
(section 4.1); the `secrets` module is not in the repository snapshot. -/
def numBytes (n : ℕ) : ℕ := (bitLen n + 7) / 8

/-- The value of `k` bytes of the entropy stream starting at position `pos`
(each stream cell is reduced mod 256, one byte). -/
def bytesVal (s : ℕ → ℕ) (pos : ℕ) : ℕ → ℕ
  | 0 => 0
  | k + 1 => bytesVal s pos k * 256 + s (pos + k) % 256

/-- Masking off the excess high bits of a raw draw, keeping the low
`bitLen n` bits: `raw % 2 ^ bitLen n`. -/
def maskVal (n raw : ℕ) : ℕ := raw % 2 ^ bitLen n

/-- Modelled from the spec: `secrets.randbelow n` — read `numBytes n` fresh
bytes, mask off the excess high bits, and reject-and-retry while the masked
value is ≥ `n` (section 4.1).  Returns the drawn value and the new stream
position; `none` means the explicit fuel ran out. -/
def randbelow (n : ℕ) (s : ℕ → ℕ) : ℕ → ℕ → Option (ℕ × ℕ)
  | _, 0 => none
  | pos, fuel + 1 =>
    let r := maskVal n (bytesVal s pos (numBytes n))
    if r < n then some (r, pos + numBytes n)
    else randbelow n s (pos + numBytes n) fuel

/-- Modelled from the spec: `secrets.randchoice seq = seq[randbelow (len seq)]`,
failing with `EmptyAlphabet` on an empty sequence (section 4.1). -/
def randchoice {α : Type} (lst : List α) (s : ℕ → ℕ) (pos fuel : ℕ) :
    Except Err (Option (α × ℕ)) :=
  match lst with
  | [] => .error .emptyAlphabet
  | a :: tl =>
    match randbelow (a :: tl).length s pos fuel with
    | none => .ok none
    | some (i, p) => .ok (some ((a :: tl).getD i a, p))

/-- Modelled from the spec: `secrets.randbetween mn mx = mn + randbelow (mx - mn + 1)`
over the inclusive range, requiring `mx ≥ mn ≥ 0` and failing with
`InvalidRange` otherwise (section 4.1). -/
def randbetween (mn mx : ℤ) (s : ℕ → ℕ) (pos fuel : ℕ) :
    Except Err (Option (ℤ × ℕ)) :=
  if 0 ≤ mn ∧ mn ≤ mx then
    match randbelow (mx - mn + 1).toNat s pos fuel with
    | none => .ok none
    | some (v, p) => .ok (some (mn + (v : ℤ), p))
  else .error .invalidRange

/-- The configuration and result state of class `Passphrase` (class
attributes, lines 35–45), with the defaults of the source (the built-in
wordlist data itself is an external resource and defaults to the class
attribute values here). -/
structure PassphraseState where
  passwordlen : ℤ := 12
  amount_n : ℤ := 0
  amount_w : ℤ := 6
  last_result : Option (List Token) := some []
  randnum_min : ℤ := MIN_NUM
  randnum_max : ℤ := MAX_NUM
  entropy_bits_req : ℚ := ENTROPY_BITS_MIN
  wordlist : List (List Char) := []
  wordlist_entropy_bits : ℚ := 0
  external_wordlist : Bool := false
  separator : List Char := [' ']
  deriving DecidableEq, Repr

/-- Common body of the validated integer setters (lines 63–117): reject a
non-int argument (`TypeError`) or a negative int (`ValueError`) — both
`InvalidConfiguration` in the design document's taxonomy — and store the
value otherwise.  A rejected assignment produces no new state, so every
field keeps its old value. -/
def setIntField (upd : PassphraseState → ℤ → PassphraseState) (v : PyVal)
    (st : PassphraseState) : Except Err PassphraseState :=
  match v with
  | .int z => if z < 0 then .error .invalidConfiguration else .ok (upd st z)
  | _ => .error .invalidConfiguration

/-- The `randnum_min` setter (lines 63–69). -/
def set_randnum_min : PyVal → PassphraseState → Except Err PassphraseState :=
  setIntField fun st z => { st with randnum_min := z }

/-- The `randnum_max` setter (lines 75–81). -/
def set_randnum_max : PyVal → PassphraseState → Except Err PassphraseState :=
  setIntField fun st z => { st with randnum_max := z }

/-- The `amount_w` setter (lines 87–93). -/
def set_amount_w : PyVal → PassphraseState → Except Err PassphraseState :=
  setIntField fun st z => { st with amount_w := z }

/-- The `amount_n` setter (lines 99–105). -/
def set_amount_n : PyVal → PassphraseState → Except Err PassphraseState :=
  setIntField fun st z => { st with amount_n := z }

/-- The `passwordlen` setter (lines 111–117). -/
def set_passwordlen : PyVal → PassphraseState → Except Err PassphraseState :=
  setIntField fun st z => { st with passwordlen := z }

/-- The `entropy_bits_req` setter (lines 51–57): accepts an int or a float,
rejects a negative value, and stores `float(entropybits)`. -/
def set_entropy_bits_req (v : PyVal) (st : PassphraseState) :
    Except Err PassphraseState :=
  match v with
  | .int z =>
    if z < 0 then .error .invalidConfiguration
    else .ok { st with entropy_bits_req := (z : ℚ) }
  | .float q =>
    if q < 0 then .error .invalidConfiguration
    else .ok { st with entropy_bits_req := q }
  | _ => .error .invalidConfiguration

/-- Modelled from the spec: the common entropy formula of `calc`
(section 4.2) — a zero or one element count contributes no entropy,
otherwise `log2` of the count; the `calc` module is not in the repository
snapshot. -/
noncomputable def entropyOfCount (c : ℚ) : ℝ :=
  if c = 0 ∨ c = 1 then 0 else Real.logb 2 (c : ℝ)

/-- Modelled from the spec: `calc.entropy_bits` of an alphabet — the common
formula applied to the count of distinct elements (section 4.2); the `calc`
module is not in the repository snapshot. -/
noncomputable def calc_entropy_bits (lst : List PyVal) : ℝ :=
  entropyOfCount (lst.dedup.length : ℚ)

/-- Modelled from the spec: `calc.entropy_bits_nrange` — `InvalidRange` when
`mx < mn`, else the common formula applied to the count `mx - mn + 1` of
values of the inclusive range (section 4.2); the `calc` module is not in
the repository snapshot. -/
noncomputable def calc_entropy_bits_nrange (mn mx : ℚ) : Except Err ℝ :=
  if mx < mn then .error .invalidRange
  else .ok (entropyOfCount (mx - mn + 1))

/-- `Passphrase.entropy_bits` (lines 171–186): a two element list whose two
entries are both numbers is dispatched to the numeric range formula, every
other list to the alphabet formula. -/
noncomputable def Passphrase.entropy_bits (lst : List PyVal) : Except Err ℝ :=
  if lst.length = 2 ∧ (lst.getD 0 (.int 0)).isNumeric = true ∧
      (lst.getD 1 (.int 0)).isNumeric = true then
    calc_entropy_bits_nrange (lst.getD 0 (.int 0)).toQ (lst.getD 1 (.int 0)).toQ
  else .ok (calc_entropy_bits lst)

/-- Modelled from the spec: `calc.words_amount_needed` — the least word
count with `wc * e_w + amount_n * e_n ≥ ebr`, that is
`ceil (max 0 (ebr - amount_n * e_n) / e_w)`, failing with
`DegenerateAlphabet` when `e_w ≤ 0` yet a positive count would be required
(section 4.2); the `calc` module is not in the repository snapshot. -/
noncomputable def calc_words_amount_needed (ebr e_w e_n : ℝ) (amount_n : ℤ) :
    Except Err ℤ :=
  let needed : ℝ := max 0 (ebr - (amount_n : ℝ) * e_n)
  if e_w ≤ 0 then
    if 0 < needed then .error .degenerateAlphabet else .ok 0
  else .ok ⌈needed / e_w⌉

/-- The drawing loop of `generate` (lines 247–248) and of
`generate_password` (lines 261–262): `k` draws of `randchoice` from a fixed
alphabet, threading the stream position, each draw with the given retry
fuel. -/
def drawWords (wl : List (List Char)) (s : ℕ → ℕ) (fuel : ℕ) :
    ℕ → ℕ → Except Err (Option (List Token × ℕ))
  | 0, pos => .ok (some ([], pos))
  | k + 1, pos =>
    match randchoice wl s pos fuel with
    | .error e => .error e
    | .ok none => .ok none
    | .ok (some (w, p)) =>
      match drawWords wl s fuel k p with
      | .error e => .error e
      | .ok none => .ok none
      | .ok (some (ts, q)) => .ok (some (.str w :: ts, q))

/-- The number drawing loop of `generate` (lines 250–251): `k` draws of
`randbetween mn mx`, threading the stream position. -/
def drawNums (mn mx : ℤ) (s : ℕ → ℕ) (fuel : ℕ) :
    ℕ → ℕ → Except Err (Option (List Token × ℕ))
  | 0, pos => .ok (some ([], pos))
  | k + 1, pos =>
    match randbetween mn mx s pos fuel with
    | .error e => .error e
    | .ok none => .ok none
    | .ok (some (v, p)) =>
      match drawNums mn mx s fuel k p with
      | .error e => .error e
      | .ok none => .ok none
      | .ok (some (ts, q)) => .ok (some (.num v :: ts, q))

/-- `Passphrase.generate` (lines 240–254): an empty wordlist fails with the
`EmptyAlphabet` kind before anything is drawn; otherwise `amount_w` words
drawn by `randchoice` from the wordlist, followed by `amount_n` numbers
drawn by `randbetween MIN_NUM MAX_NUM` — the module constants of
`settings`, not the configured `randnum_min` / `randnum_max` — and the
resulting list is stored in `last_result` and returned. -/
def generate (st : PassphraseState) (s : ℕ → ℕ) (pos fuel : ℕ) :
    Except Err (Option (List Token × PassphraseState)) :=
  if st.wordlist.length < 1 then .error .emptyAlphabet
  else
    match drawWords st.wordlist s fuel st.amount_w.toNat pos with
    | .error e => .error e
    | .ok none => .ok none
    | .ok (some (ws, p)) =>
      match drawNums MIN_NUM MAX_NUM s fuel st.amount_n.toNat p with
      | .error e => .error e
      | .ok none => .ok none
      | .ok (some (ns, _)) =>
        .ok (some (ws ++ ns, { st with last_result := some (ws ++ ns) }))

/-- Python's `string.digits`. -/
def pyDigits : List Char :=
  ['0', '1', '2', '3', '4', '5', '6', '7', '8', '9']

/-- Python's `string.ascii_letters` (lowercase followed by uppercase). -/
def pyAsciiLetters : List Char :=
  ['a', 'b', 'c', 'd', 'e', 'f', 'g', 'h', 'i', 'j', 'k', 'l', 'm',
   'n', 'o', 'p', 'q', 'r', 's', 't', 'u', 'v', 'w', 'x', 'y', 'z',
   'A', 'B', 'C', 'D', 'E', 'F', 'G', 'H', 'I', 'J', 'K', 'L', 'M',
   'N', 'O', 'P', 'Q', 'R', 'S', 'T', 'U', 'V', 'W', 'X', 'Y', 'Z']

/-- Python's `string.punctuation` (32 symbols; the double quote, single
quote, backslash, backtick and braces are written by code point). -/
def pyPunctuation : List Char :=
  ['!', Char.ofNat 34, '#', '$', '%', '&', Char.ofNat 39, '(', ')', '*',
   '+', ',', '-', '.', '/', ':', ';', '<', '=', '>', '?', '@', '[',
   Char.ofNat 92, ']', '^', '_', Char.ofNat 96, Char.ofNat 123, '|',
   Char.ofNat 125, '~']

/-- The password alphabet built by `generate_password` (line 259):
`list(digits + ascii_letters + punctuation)`, a list of one character
strings. -/
def pyPrintable : List (List Char) :=
  (pyDigits ++ pyAsciiLetters ++ pyPunctuation).map fun c => [c]

/-- `Passphrase.generate_password` (lines 256–265): `passwordlen` draws of
`randchoice` from the printable alphabet, stored in `last_result` and
returned.  The configured wordlist plays no part. -/
def generate_password (st : PassphraseState) (s : ℕ → ℕ) (pos fuel : ℕ) :
    Except Err (Option (List Token × PassphraseState)) :=
  match drawWords pyPrintable s fuel st.passwordlen.toNat pos with
  | .error e => .error e
  | .ok none => .ok none
  | .ok (some (cs, _)) =>
    .ok (some (cs, { st with last_result := some cs }))

/-- `Passphrase.words_amount_needed` (lines 219–238): the entropy of the
configured numeric range through the dispatching `Passphrase.entropy_bits`,
then the cached wordlist entropy when the built-in list is in use and the
computed one otherwise, then delegation to the calculator.  The state is
passed through untouched — the method assigns nothing. -/
noncomputable def words_amount_needed (st : PassphraseState) :
    Except Err (ℤ × PassphraseState) :=
  match Passphrase.entropy_bits [.int st.randnum_min, .int st.randnum_max] with
  | .error e => .error e
  | .ok e_n =>
    match (if st.external_wordlist = false
        then (Except.ok (st.wordlist_entropy_bits : ℝ) : Except Err ℝ)
        else Passphrase.entropy_bits (st.wordlist.map PyVal.str)) with
    | .error e => .error e
    | .ok e_w =>
      match calc_words_amount_needed (st.entropy_bits_req : ℝ) e_w e_n
          st.amount_n with
      | .error e => .error e
      | .ok z => .ok (z, st)

/-- The spec's wording of `words_amount_needed` (section 4.3): entropy per
number from `entropy_bits_of_range` on the configured range, entropy per
word the cached constant for the built-in list and
`entropy_bits_of_alphabet` otherwise, delegated to the calculator; config
and result are untouched. -/
noncomputable def wordsAmountNeededSpec (st : PassphraseState) :
    Except Err (ℤ × PassphraseState) :=
  match calc_entropy_bits_nrange (st.randnum_min : ℚ) (st.randnum_max : ℚ) with
  | .error e => .error e
  | .ok e_n =>
    let e_w : ℝ :=
      if st.external_wordlist = false then (st.wordlist_entropy_bits : ℝ)
      else calc_entropy_bits (st.wordlist.map PyVal.str)
    match calc_words_amount_needed (st.entropy_bits_req : ℝ) e_w e_n
        st.amount_n with
    | .error e => .error e
    | .ok z => .ok (z, st)

/-- `Passphrase.__str__` (lines 158–169): empty for a `None` result, else
each token rendered and followed by the separator, all concatenated, with
the final separator's characters sliced off (`[:-len(sep)]`) when the
separator is non-empty. -/
def pyStr (st : PassphraseState) : List Char :=
  match st.last_result with
  | none => []
  | some lst =>
    let joined := (lst.map fun w => w.render ++ st.separator).flatten
    if 0 < st.separator.length then
      joined.take (joined.length - st.separator.length)
    else joined

/-- The spec's rendering (section 4.3): the tokens' textual forms joined by
the separator, with no trailing separator. -/
def joinSep (sep : List Char) : List (List Char) → List Char
  | [] => []
  | [x] => x
  | x :: y :: tl => x ++ sep ++ joinSep sep (y :: tl)

theorem bitLenAux_lt : ∀ fuel n, n ≤ fuel → n < 2 ^ bitLenAux fuel n := by
  intro fuel
  induction fuel with
  | zero =>
    intro n hn
    have h0 : n = 0 := Nat.le_zero.mp hn
    subst h0
    simp [bitLenAux]
  | succ k ih =>
    intro n hn
    rw [bitLenAux]
    by_cases h0 : n = 0
    · subst h0; simp
    · rw [if_neg h0]
      have hh : n / 2 ≤ k := by omega
      have hrec := ih (n / 2) hh
      rw [pow_succ]
      omega

theorem lt_two_pow_bitLen (n : ℕ) : n < 2 ^ bitLen n :=
  bitLenAux_lt n n le_rfl

theorem bitLen_le_numBytes (n : ℕ) : bitLen n ≤ 8 * numBytes n := by
  unfold numBytes
  omega

theorem randbelow_lt {n : ℕ} (s : ℕ → ℕ) :
    ∀ fuel pos v p, randbelow n s pos fuel = some (v, p) → v < n := by
  intro fuel
  induction fuel with
  | zero => intro pos v p h; simp [randbelow] at h
  | succ k ih =>
    intro pos v p h
    simp only [randbelow] at h
    split at h
    · rename_i hlt
      cases h
      exact hlt
    · exact ih _ _ _ h

theorem filter_mod_card (m t v : ℕ) (hv : v < m) :
    ((Finset.range (m * t)).filter fun x => x % m = v).card = t := by
  have hm : 0 < m := Nat.lt_of_le_of_lt (Nat.zero_le v) hv
  have hinj : Function.Injective fun i => m * i + v := by
    intro a b hab
    simp only at hab
    exact Nat.eq_of_mul_eq_mul_left hm (by omega)
  have himg : (Finset.range (m * t)).filter (fun x => x % m = v) =
      (Finset.range t).image fun i => m * i + v := by
    ext x
    simp only [Finset.mem_filter, Finset.mem_range, Finset.mem_image]
    constructor
    · rintro ⟨hlt, hmod⟩
      refine ⟨x / m, Nat.div_lt_of_lt_mul hlt, ?_⟩
      rw [← hmod]
      exact Nat.div_add_mod x m
    · rintro ⟨i, hi, rfl⟩
      constructor
      · have h1 : m * i + v < m * i + m := by omega
        have h2 : m * i + m = m * (i + 1) := by ring
        have h3 : m * (i + 1) ≤ m * t := Nat.mul_le_mul_left m hi
        omega
      · rw [Nat.mul_add_mod]
        exact Nat.mod_eq_of_lt hv
  rw [himg, Finset.card_image_of_injective _ hinj, Finset.card_range]

/-- C5: for `n > 0`, `randbelow` only ever returns values in `[0, n)`; it
reads `numBytes n` bytes per attempt and masks them down to `bitLen n`
bits, under which masking every accepted value is its own representative
(the map is the identity on `[0, n)`), and every masked value below
`2 ^ bitLen n` arises from exactly the same number
`2 ^ (8 * numBytes n - bitLen n)` of raw byte blocks — so the masked draw
is uniform and the reject-and-retry loop leaves a uniform, modulo-bias-free
distribution on `[0, n)`. -/
theorem randbelow_unbiased (n : ℕ) (hn : 0 < n) :
    (∀ s pos fuel v p, randbelow n s pos fuel = some (v, p) → v < n) ∧
    (∀ v, v < n → maskVal n v = v) ∧
    (∀ v, v < 2 ^ bitLen n →
      ((Finset.range (2 ^ (8 * numBytes n))).filter
          fun raw => maskVal n raw = v).card =
        2 ^ (8 * numBytes n - bitLen n)) := by
  refine ⟨fun s pos fuel v p h => randbelow_lt s fuel pos v p h, ?_, ?_⟩
  · intro v hv
    exact Nat.mod_eq_of_lt (lt_trans hv (lt_two_pow_bitLen n))
  · intro v hv
    have hle : bitLen n ≤ 8 * numBytes n := bitLen_le_numBytes n
    have h2 : (2 : ℕ) ^ (8 * numBytes n) =
        2 ^ bitLen n * 2 ^ (8 * numBytes n - bitLen n) := by
      rw [← pow_add]
      congr 1
      omega
    rw [h2]
    simp only [maskVal]
    exact filter_mod_card _ _ v hv

theorem randbelow_unbiased_witness :
    0 < 6 ∧
    ((∀ s pos fuel v p, randbelow 6 s pos fuel = some (v, p) → v < 6) ∧
     (∀ v, v < 6 → maskVal 6 v = v) ∧
     (∀ v, v < 2 ^ bitLen 6 →
       ((Finset.range (2 ^ (8 * numBytes 6))).filter
           fun raw => maskVal 6 raw = v).card =
         2 ^ (8 * numBytes 6 - bitLen 6))) :=
  ⟨by decide, randbelow_unbiased 6 (by decide)⟩

theorem getD_cons_mem {α : Type} (a : α) (tl : List α) (i : ℕ) :
    (a :: tl).getD i a ∈ a :: tl := by
  by_cases hi : i < (a :: tl).length
  · rw [List.getD_eq_getElem _ _ hi]
    exact List.getElem_mem _
  · rw [List.getD_eq_default _ _ (Nat.le_of_not_lt hi)]
    exact List.mem_cons_self a tl

theorem randchoice_mem {α : Type} (lst : List α) (s : ℕ → ℕ) (pos fuel : ℕ)
    (w : α) (p : ℕ) (h : randchoice lst s pos fuel = .ok (some (w, p))) :
    w ∈ lst := by
  cases lst with
  | nil => simp [randchoice] at h
  | cons a tl =>
    rw [randchoice] at h
    cases hrb : randbelow (a :: tl).length s pos fuel with
    | none => rw [hrb] at h; simp at h
    | some ip =>
      obtain ⟨i, p2⟩ := ip
      rw [hrb] at h
      simp only [Except.ok.injEq, Option.some.injEq, Prod.mk.injEq] at h
      obtain ⟨hw, _⟩ := h
      rw [← hw]
      exact getD_cons_mem a tl i

theorem randbetween_bounds (mn mx : ℤ) (s : ℕ → ℕ) (pos fuel : ℕ) (v : ℤ)
    (p : ℕ) (h : randbetween mn mx s pos fuel = .ok (some (v, p))) :
    mn ≤ v ∧ v ≤ mx := by
  rw [randbetween] at h
  by_cases hc : 0 ≤ mn ∧ mn ≤ mx
  · rw [if_pos hc] at h
    cases hrb : randbelow (mx - mn + 1).toNat s pos fuel with
    | none => rw [hrb] at h; simp at h
    | some up =>
      obtain ⟨u, p2⟩ := up
      rw [hrb] at h
      simp at h
      obtain ⟨hv, _⟩ := h
      have hu : u < (mx - mn + 1).toNat := randbelow_lt s fuel pos u p2 hrb
      omega
  · rw [if_neg hc] at h
    simp at h

theorem drawWords_ok (wl : List (List Char)) (s : ℕ → ℕ) (fuel : ℕ) :
    ∀ k pos res p, drawWords wl s fuel k pos = .ok (some (res, p)) →
      res.length = k ∧ ∀ t ∈ res, ∃ w ∈ wl, t = Token.str w := by
  intro k
  induction k with
  | zero =>
    intro pos res p h
    rw [drawWords] at h
    simp at h
    obtain ⟨hres, _⟩ := h
    subst hres
    exact ⟨rfl, by simp⟩
  | succ m ih =>
    intro pos res p h
    rw [drawWords] at h
    split at h
    · exact absurd h (by simp)
    · exact absurd h (by simp)
    · rename_i w p1 hrc
      split at h
      · exact absurd h (by simp)
      · exact absurd h (by simp)
      · rename_i ts q hdw
        simp only [Except.ok.injEq, Option.some.injEq, Prod.mk.injEq] at h
        obtain ⟨hres, _⟩ := h
        obtain ⟨hlen, hmem⟩ := ih p1 ts q hdw
        constructor
        · rw [← hres]
          simp [hlen]
        · intro t ht
          rw [← hres] at ht
          rcases List.mem_cons.mp ht with h1 | h2
          · exact ⟨w, randchoice_mem wl s pos fuel w p1 hrc, h1⟩
          · exact hmem t h2

theorem drawNums_ok (mn mx : ℤ) (s : ℕ → ℕ) (fuel : ℕ) :
    ∀ k pos res p, drawNums mn mx s fuel k pos = .ok (some (res, p)) →
      res.length = k ∧
        ∀ t ∈ res, ∃ z : ℤ, t = Token.num z ∧ mn ≤ z ∧ z ≤ mx := by
  intro k
  induction k with
  | zero =>
    intro pos res p h
    rw [drawNums] at h
    simp at h
    obtain ⟨hres, _⟩ := h
    subst hres
    exact ⟨rfl, by simp⟩
  | succ m ih =>
    intro pos res p h
    rw [drawNums] at h
    split at h
    · exact absurd h (by simp)
    · exact absurd h (by simp)
    · rename_i v p1 hrb
      split at h
      · exact absurd h (by simp)
      · exact absurd h (by simp)
      · rename_i ts q hdn
        simp only [Except.ok.injEq, Option.some.injEq, Prod.mk.injEq] at h
        obtain ⟨hres, _⟩ := h
        obtain ⟨hlen, hmem⟩ := ih p1 ts q hdn
        constructor
        · rw [← hres]
          simp [hlen]
        · intro t ht
          rw [← hres] at ht
          rcases List.mem_cons.mp ht with h1 | h2
          · obtain ⟨hb1, hb2⟩ :=
              randbetween_bounds mn mx s pos fuel v p1 hrb
            exact ⟨v, h1, hb1, hb2⟩
          · exact hmem t h2

/-- C1 (code bug): with `randnum_min = 20000`, `randnum_max = 30000` and one
number requested, `generate` still draws its number via
`randbetween MIN_NUM MAX_NUM` — line 251 passes the `settings` module
constants, not the configured fields — so the number token `0` produced on
the all-zero byte stream lies outside the configured range, contradicting
the class's own attribute documentation (lines 29–30) and the design
document's `random_between(numeric_range.min, numeric_range.max)`. -/
theorem generate_ignores_configured_range :
    generate { wordlist := [['a']], amount_w := 0, amount_n := 1,
               randnum_min := 20000, randnum_max := 30000 }
        (fun _ => 0) 0 1 =
      .ok (some ([Token.num 0],
        { wordlist := [['a']], amount_w := 0, amount_n := 1,
          randnum_min := 20000, randnum_max := 30000,
          last_result := some [Token.num 0] })) ∧
    ¬ ((20000 : ℤ) ≤ 0 ∧ (0 : ℤ) ≤ 30000) :=
  ⟨rfl, by decide⟩

/-- C2: on any success against a non-empty wordlist with non-negative
configured counts, `generate` returns `amount_w` word tokens — each a
member of the wordlist, repeats permitted — followed by `amount_n` number
tokens, `amount_w + amount_n` tokens in all, and the returned sequence is
stored as `last_result`. -/
theorem generate_shape (st : PassphraseState) (s : ℕ → ℕ) (pos fuel : ℕ)
    (res : List Token) (st' : PassphraseState)
    (hwl : st.wordlist ≠ [])
    (hw : 0 ≤ st.amount_w) (hn : 0 ≤ st.amount_n)
    (h : generate st s pos fuel = .ok (some (res, st'))) :
    ∃ ws ns, res = ws ++ ns ∧
      (res.length : ℤ) = st.amount_w + st.amount_n ∧
      ws.length = st.amount_w.toNat ∧
      (∀ t ∈ ws, ∃ w ∈ st.wordlist, t = Token.str w) ∧
      ns.length = st.amount_n.toNat ∧
      (∀ t ∈ ns, ∃ z : ℤ, t = Token.num z) ∧
      st' = { st with last_result := some res } := by
  rw [generate] at h
  have hlen1 : ¬ st.wordlist.length < 1 := by
    have := List.length_pos.mpr hwl
    omega
  rw [if_neg hlen1] at h
  split at h
  · exact absurd h (by simp)
  · exact absurd h (by simp)
  · rename_i ws p1 hdw
    split at h
    · exact absurd h (by simp)
    · exact absurd h (by simp)
    · rename_i ns q hdn
      simp only [Except.ok.injEq, Option.some.injEq, Prod.mk.injEq] at h
      obtain ⟨hres, hst⟩ := h
      obtain ⟨hwlen, hwmem⟩ :=
        drawWords_ok st.wordlist s fuel st.amount_w.toNat pos ws p1 hdw
      obtain ⟨hnlen, hnmem⟩ :=
        drawNums_ok MIN_NUM MAX_NUM s fuel st.amount_n.toNat p1 ns q hdn
      refine ⟨ws, ns, hres.symm, ?_, hwlen, hwmem, hnlen, ?_, ?_⟩
      · rw [← hres]
        rw [List.length_append, hwlen, hnlen]
        push_cast
        omega
      · intro t ht
        obtain ⟨z, hz, _, _⟩ := hnmem t ht
        exact ⟨z, hz⟩
      · rw [← hres]
        exact hst.symm

/-- Concrete configuration exercising `generate`: a two word list, two words
and one number requested. -/
def stC2 : PassphraseState :=
  { wordlist := [['a'], ['b']], amount_w := 2, amount_n := 1 }

/-- The tokens `generate` produces from `stC2` on the all-zero byte
stream. -/
def resC2 : List Token := [.str ['a'], .str ['a'], .num 0]

theorem generate_shape_witness :
    stC2.wordlist ≠ [] ∧ 0 ≤ stC2.amount_w ∧ 0 ≤ stC2.amount_n ∧
    generate stC2 (fun _ => 0) 0 1 =
      .ok (some (resC2, { stC2 with last_result := some resC2 })) ∧
    ∃ ws ns, resC2 = ws ++ ns ∧
      (resC2.length : ℤ) = stC2.amount_w + stC2.amount_n ∧
      ws.length = stC2.amount_w.toNat ∧
      (∀ t ∈ ws, ∃ w ∈ stC2.wordlist, t = Token.str w) ∧
      ns.length = stC2.amount_n.toNat ∧
      (∀ t ∈ ns, ∃ z : ℤ, t = Token.num z) ∧
      ({ stC2 with last_result := some resC2 } : PassphraseState) =
        { stC2 with last_result := some resC2 } :=
  ⟨by decide, by decide, by decide, rfl,
   generate_shape stC2 (fun _ => 0) 0 1 resC2 _
     (by decide) (by decide) (by decide) rfl⟩

/-- C3: with an empty configured wordlist, `generate` fails with the
`EmptyAlphabet` error kind on every byte stream, at every position and
even with zero fuel — the check precedes any draw — and, the failure
producing no new state, `last_result` (like every other field) is left
unchanged. -/
theorem generate_empty_wordlist (st : PassphraseState)
    (hwl : st.wordlist = []) :
    ∀ s pos fuel, generate st s pos fuel = .error .emptyAlphabet := by
  intro s pos fuel
  rw [generate, hwl]
  rfl

theorem generate_empty_wordlist_witness :
    ({} : PassphraseState).wordlist = [] ∧
    generate ({} : PassphraseState) (fun _ => 0) 0 0 =
      .error .emptyAlphabet :=
  ⟨rfl, generate_empty_wordlist {} rfl (fun _ => 0) 0 0⟩

/-- C4: on any success with a non-negative configured length,
`generate_password` returns exactly `passwordlen` tokens, each a one
character string of the fixed 94 symbol printable alphabet (digits, then
letters, then punctuation), stores the sequence as `last_result`, and
behaves identically whatever the configured wordlist is. -/
theorem generate_password_shape (st : PassphraseState) (s : ℕ → ℕ)
    (pos fuel : ℕ) (res : List Token) (st' : PassphraseState)
    (hlen : 0 ≤ st.passwordlen)
    (h : generate_password st s pos fuel = .ok (some (res, st'))) :
    (res.length : ℤ) = st.passwordlen ∧
    (∀ t ∈ res, ∃ c ∈ pyPrintable, t = Token.str c) ∧
    pyPrintable.length = 94 ∧
    st' = { st with last_result := some res } ∧
    ∀ wl, generate_password { st with wordlist := wl } s pos fuel =
      .ok (some (res,
        { st with wordlist := wl, last_result := some res })) := by
  rw [generate_password] at h
  split at h
  · exact absurd h (by simp)
  · exact absurd h (by simp)
  · rename_i cs p1 hdw
    simp only [Except.ok.injEq, Option.some.injEq, Prod.mk.injEq] at h
    obtain ⟨hres, hst⟩ := h
    obtain ⟨hclen, hcmem⟩ :=
      drawWords_ok pyPrintable s fuel st.passwordlen.toNat pos cs p1 hdw
    subst hres
    refine ⟨?_, hcmem, rfl, hst.symm, ?_⟩
    · rw [hclen]
      omega
    · intro wl
      rw [generate_password]
      have hproj : ({ st with wordlist := wl } :
          PassphraseState).passwordlen = st.passwordlen := rfl
      rw [hproj, hdw]

/-- Concrete configuration exercising `generate_password`: three characters
requested. -/
def stC4 : PassphraseState := { passwordlen := 3 }

/-- The tokens `generate_password` produces from `stC4` on the all-zero
byte stream. -/
def resC4 : List Token := [.str ['0'], .str ['0'], .str ['0']]

theorem generate_password_shape_witness :
    0 ≤ stC4.passwordlen ∧
    generate_password stC4 (fun _ => 0) 0 1 =
      .ok (some (resC4, { stC4 with last_result := some resC4 })) ∧
    ((resC4.length : ℤ) = stC4.passwordlen ∧
     (∀ t ∈ resC4, ∃ c ∈ pyPrintable, t = Token.str c) ∧
     pyPrintable.length = 94 ∧
     ({ stC4 with last_result := some resC4 } : PassphraseState) =
       { stC4 with last_result := some resC4 } ∧
     ∀ wl, generate_password { stC4 with wordlist := wl } (fun _ => 0) 0 1 =
       .ok (some (resC4,
         { stC4 with wordlist := wl, last_result := some resC4 }))) :=
  ⟨by decide, rfl,
   generate_password_shape stC4 (fun _ => 0) 0 1 resC4 _ (by decide) rfl⟩

/-- C6: every numeric configuration setter rejects a non-int or negative
assignment with `InvalidConfiguration` — producing no new state, so the
field (and all others) keeps its value; `amount_w = -1` in particular is
rejected, before any generation can occur; `entropy_bits_req` additionally
accepts any non-negative int or float and stores it as a float value. -/
theorem setters_validate (st : PassphraseState) (v : PyVal) :
    ((∀ z : ℤ, v = .int z → z < 0) →
      set_randnum_min v st = .error .invalidConfiguration ∧
      set_randnum_max v st = .error .invalidConfiguration ∧
      set_amount_w v st = .error .invalidConfiguration ∧
      set_amount_n v st = .error .invalidConfiguration ∧
      set_passwordlen v st = .error .invalidConfiguration) ∧
    ((∀ z : ℤ, v = .int z → z < 0) →
     (∀ q : ℚ, v = .float q → q < 0) →
      set_entropy_bits_req v st = .error .invalidConfiguration) ∧
    (∀ z : ℤ, 0 ≤ z →
      set_entropy_bits_req (.int z) st =
        .ok { st with entropy_bits_req := (z : ℚ) }) ∧
    (∀ q : ℚ, 0 ≤ q →
      set_entropy_bits_req (.float q) st =
        .ok { st with entropy_bits_req := q }) ∧
    set_amount_w (.int (-1)) st = .error .invalidConfiguration := by
  refine ⟨?_, ?_, ?_, ?_, ?_⟩
  · intro hv
    cases v with
    | int z =>
      have hz : z < 0 := hv z rfl
      refine ⟨?_, ?_, ?_, ?_, ?_⟩ <;>
        simp [set_randnum_min, set_randnum_max, set_amount_w, set_amount_n,
              set_passwordlen, setIntField, hz]
    | float q => exact ⟨rfl, rfl, rfl, rfl, rfl⟩
    | str s2 => exact ⟨rfl, rfl, rfl, rfl, rfl⟩
  · intro hvi hvf
    cases v with
    | int z => simp [set_entropy_bits_req, hvi z rfl]
    | float q => simp [set_entropy_bits_req, hvf q rfl]
    | str s2 => rfl
  · intro z hz
    simp [set_entropy_bits_req, not_lt.mpr hz]
  · intro q hq
    simp [set_entropy_bits_req, not_lt.mpr hq]
  · rfl

theorem setters_validate_witness :
    (∀ z : ℤ, PyVal.float (1 / 2) = .int z → z < 0) ∧
    set_amount_w (.float (1 / 2)) ({} : PassphraseState) =
      .error .invalidConfiguration ∧
    set_amount_w (.int (-1)) ({} : PassphraseState) =
      .error .invalidConfiguration ∧
    set_entropy_bits_req (.int 3) ({} : PassphraseState) =
      .ok { ({} : PassphraseState) with entropy_bits_req := ((3 : ℤ) : ℚ) } :=
  ⟨(fun z h => nomatch h),
   ((setters_validate {} (.float (1 / 2))).1 (fun z h => nomatch h)).2.2.1,
   (setters_validate {} (.int (-1))).2.2.2.2,
   (setters_validate {} (.int 3)).2.2.1 3 (by decide)⟩

theorem entropy_bits_int_pair (a b : ℤ) :
    Passphrase.entropy_bits [.int a, .int b] =
      calc_entropy_bits_nrange (a : ℚ) (b : ℚ) := by
  rw [Passphrase.entropy_bits, if_pos]
  · rfl
  · exact ⟨rfl, rfl, rfl⟩

theorem entropy_bits_all_str (wl : List (List Char)) :
    Passphrase.entropy_bits (wl.map PyVal.str) =
      .ok (calc_entropy_bits (wl.map PyVal.str)) := by
  rw [Passphrase.entropy_bits, if_neg]
  rintro ⟨hlen, h0, h1⟩
  rcases wl with _ | ⟨a, _ | ⟨b, _ | ⟨c, tl⟩⟩⟩ <;>
    simp_all [PyVal.isNumeric]

/-- C7: `words_amount_needed` agrees everywhere with the spec's composition
— entropy per number is `entropy_bits_of_range` of the configured
`(randnum_min, randnum_max)` (the dispatching static method resolves the
two-int pair to the range formula), entropy per word is the cached
precomputed constant for the built-in wordlist and
`entropy_bits_of_alphabet` otherwise, and the result is the calculator's
`words_amount_needed` of `entropy_bits_req`, those entropies and
`amount_n` — and the call passes the state through untouched, mutating
neither configuration nor `last_result`. -/
theorem words_amount_needed_correct (st : PassphraseState) :
    words_amount_needed st = wordsAmountNeededSpec st ∧
    (words_amount_needed st).map (fun r => r.2) =
      (words_amount_needed st).map (fun _ => st) := by
  have h1 : words_amount_needed st = wordsAmountNeededSpec st := by
    rw [words_amount_needed, wordsAmountNeededSpec, entropy_bits_int_pair]
    cases calc_entropy_bits_nrange (st.randnum_min : ℚ)
        (st.randnum_max : ℚ) with
    | error e => rfl
    | ok e_n =>
      cases hex : st.external_wordlist with
      | false =>
        simp only [hex]
        cases calc_words_amount_needed (st.entropy_bits_req : ℝ)
            (st.wordlist_entropy_bits : ℝ) e_n st.amount_n with
        | error e => rfl
        | ok z => rfl
      | true =>
        simp only [hex, entropy_bits_all_str]
        cases calc_words_amount_needed (st.entropy_bits_req : ℝ)
            (calc_entropy_bits (st.wordlist.map PyVal.str)) e_n
            st.amount_n with
        | error e => rfl
        | ok z => rfl
  refine ⟨h1, ?_⟩
  have hsnd : ∀ z st2, words_amount_needed st = .ok (z, st2) → st2 = st := by
    intro z st2 hok
    rw [h1, wordsAmountNeededSpec] at hok
    split at hok
    · exact absurd hok (by simp)
    · split at hok
      · dsimp only at hok
        split at hok
        · exact absurd hok (by simp)
        · simp only [Except.ok.injEq, Prod.mk.injEq] at hok
          exact hok.2.symm
      · dsimp only at hok
        split at hok
        · exact absurd hok (by simp)
        · simp only [Except.ok.injEq, Prod.mk.injEq] at hok
          exact hok.2.symm
  cases hok : words_amount_needed st with
  | error e => rfl
  | ok p =>
    obtain ⟨z, st2⟩ := p
    have hst2 := hsnd z st2 hok
    subst hst2
    rfl

/-- C9: the public static `entropy_bits` treats every two element list whose
entries are both numbers (int or float) as a numeric `(minimum, maximum)`
range and hands it to the range entropy formula — never to the two symbol
alphabet formula that would yield 1 bit — while every list of any other
length or element type goes to the alphabet formula. -/
theorem entropy_bits_two_number_dispatch :
    (∀ a b : PyVal, a.isNumeric = true → b.isNumeric = true →
      Passphrase.entropy_bits [a, b] =
        calc_entropy_bits_nrange a.toQ b.toQ) ∧
    (∀ lst : List PyVal,
      (¬ ∃ a b, lst = [a, b] ∧ a.isNumeric = true ∧ b.isNumeric = true) →
      Passphrase.entropy_bits lst = .ok (calc_entropy_bits lst)) := by
  constructor
  · intro a b ha hb
    rw [Passphrase.entropy_bits, if_pos]
    · rfl
    · exact ⟨rfl, ha, hb⟩
  · intro lst hne
    rw [Passphrase.entropy_bits, if_neg]
    rintro ⟨hlen, h0, h1⟩
    apply hne
    rcases lst with _ | ⟨a, _ | ⟨b, _ | ⟨c, tl⟩⟩⟩ <;> simp_all

theorem entropy_bits_two_number_dispatch_witness :
    (PyVal.int 1).isNumeric = true ∧
    Passphrase.entropy_bits [.int 1, .int 5] =
      calc_entropy_bits_nrange (PyVal.int 1).toQ (PyVal.int 5).toQ :=
  ⟨rfl, entropy_bits_two_number_dispatch.1 (.int 1) (.int 5) rfl rfl⟩

theorem joinSep_flatten (sep : List Char) :
    ∀ xs : List (List Char), xs ≠ [] →
      (xs.map fun x => x ++ sep).flatten = joinSep sep xs ++ sep := by
  intro xs
  induction xs with
  | nil => intro h; exact absurd rfl h
  | cons x tl ih =>
    intro _
    cases tl with
    | nil => simp [joinSep]
    | cons y tl2 =>
      rw [List.map_cons, List.flatten_cons, ih (by simp), joinSep]
      simp [List.append_assoc]

/-- C8: whenever `last_result` holds a non-empty token sequence and the
separator is a non-empty string, `__str__` renders each token and joins
them with the separator in between, with no trailing separator. -/
theorem render_joins (st : PassphraseState) (lst : List Token)
    (hres : st.last_result = some lst) (hne : lst ≠ [])
    (hsep : st.separator ≠ []) :
    pyStr st = joinSep st.separator (lst.map Token.render) := by
  unfold pyStr
  rw [hres]
  dsimp only
  have hmapne : lst.map Token.render ≠ [] := by simpa using hne
  have hmm : (lst.map fun w => w.render ++ st.separator) =
      (lst.map Token.render).map fun x => x ++ st.separator := by
    rw [List.map_map]
    rfl
  rw [hmm, joinSep_flatten st.separator (lst.map Token.render) hmapne]
  have hpos : 0 < st.separator.length := List.length_pos.mpr hsep
  rw [if_pos hpos, List.length_append]
  have hlen : (joinSep st.separator (lst.map Token.render)).length +
      st.separator.length - st.separator.length =
      (joinSep st.separator (lst.map Token.render)).length := by omega
  rw [hlen]
  exact List.take_left _ _

/-- The token sequence of the spec's rendering example. -/
def resC8 : List Token :=
  [.str ("correct".data), .str ("horse".data), .str ("battery".data),
   .str ("staple".data)]

/-- The engine state of the spec's rendering example: `resC8` as the last
result and `-` as the separator. -/
def stC8 : PassphraseState := { last_result := some resC8, separator := ['-'] }

theorem render_joins_witness :
    stC8.last_result = some resC8 ∧ resC8 ≠ [] ∧ stC8.separator ≠ [] ∧
    pyStr stC8 = joinSep stC8.separator (resC8.map Token.render) ∧
    pyStr stC8 = ("correct-horse-battery-staple".data) :=
  ⟨rfl, by decide, by decide,
   render_joins stC8 resC8 rfl (by decide) (by decide), by decide⟩

/-- C10: `__str__` is total on the empty edge cases — an empty stored
result renders as the empty string, and an empty separator yields exactly
the concatenation of the rendered tokens with nothing sliced off the
end. -/
theorem render_empty_edge_cases (st : PassphraseState) :
    (st.last_result = some [] → pyStr st = []) ∧
    (∀ lst, st.separator = [] → st.last_result = some lst →
      pyStr st = (lst.map Token.render).flatten) := by
  constructor
  · intro h
    unfold pyStr
    rw [h]
    simp
  · intro lst hsep h
    unfold pyStr
    rw [h, hsep]
    simp

theorem render_empty_edge_cases_witness :
    pyStr { last_result := some [], separator := [] } = [] ∧
    pyStr { last_result := some [], separator := [] } =
      (([] : List Token).map Token.render).flatten :=
  ⟨(render_empty_edge_cases { last_result := some [], separator := [] }).1
     rfl,
   (render_empty_edge_cases { last_result := some [], separator := [] }).2
     [] rfl rfl⟩

theorem words_amount_needed_correct_witness :
    words_amount_needed ({} : PassphraseState) =
      wordsAmountNeededSpec ({} : PassphraseState) ∧
    (words_amount_needed ({} : PassphraseState)).map (fun r => r.2) =
      (words_amount_needed ({} : PassphraseState)).map
        (fun _ => ({} : PassphraseState)) :=
  words_amount_needed_correct {}
